import Mathlib

/-!
Verification of the ReturnAutomater automation driver.

This file gives a shallow embedding of the program's core logic and proves
properties about it:

* the sample aggregator `aggregate_points` / `filtered_mean`
  (src/src/openai_client.rs, lines 1110-1161);
* the point-resolution success/failure contract of `call_openai_for_point`
  (src/src/openai_client.rs, lines 843-922), modelled over the multiset of
  per-sample outcomes;
* the rate-limit tracker `RateLimitTracker` (src/src/openai_client.rs,
  lines 21-59);
* the geometry mapper `viewport_to_screen` (src/src/coords.rs, lines 60-105),
  modelled in exact (rational) arithmetic over integer fractions;
* the deterministic heuristic candidate selector `choose_best_by_heuristic`
  (src/src/openai_client.rs, lines 687-715), with the floating-point score
  abstracted into an arbitrary linearly ordered score function;
* the step engine and top-level driver of src/src/main.rs
  (`execute_step`, `execute_step_with_validation`, `main`'s plan loop),
  with the external world (browser, input injection, vision model) as an
  explicit environment and an explicit log of executed primitive actions.

Machine integers (`i32`, `usize`) are modelled as `ℤ` / `ℕ`; the claims under
study only involve values far from the overflow boundary.  Rust's truncating
integer division is `Int.tdiv`.
-/

/- ======================== SampleAggregator ======================== -/

/-- Model of `ViewportPoint` (src/src/openai_client.rs, lines 172-178): a
click target in viewport pixels as reported by the vision model, plus the
double-click flag.  `i32` is modelled as `ℤ`. -/
structure ViewportPoint where
  x : ℤ
  y : ℤ
  double : Bool
deriving DecidableEq, Repr

/-- Model of the inner function `filtered_mean` of `aggregate_points`
(src/src/openai_client.rs, lines 1112-1150).  `sort_unstable` is modelled by
`List.insertionSort (· ≤ ·)` (any correct ascending sort produces the same
list of integers); Rust `i32` division truncates toward zero, which is
`Int.tdiv`.  `iqr * 3 / 2` is the source's integer computation of `1.5·IQR`. -/
def filtered_mean (v : List ℤ) : ℤ :=
  if v.isEmpty then 0
  else
    let w := List.insertionSort (· ≤ ·) v
    let n := w.length
    if n < 4 then Int.tdiv w.sum (n : ℤ)
    else
      let q1 := w.getD (n / 4) 0
      let q3 := w.getD (3 * n / 4) 0
      let iqr := q3 - q1
      let lower := q1 - Int.tdiv (iqr * 3) 2
      let upper := q3 + Int.tdiv (iqr * 3) 2
      let filtered := w.filter fun x => decide (lower ≤ x) && decide (x ≤ upper)
      if filtered.isEmpty then Int.tdiv w.sum (n : ℤ)
      else Int.tdiv filtered.sum (filtered.length : ℤ)

/-- Model of `aggregate_points` (src/src/openai_client.rs, lines 1110-1161):
per-axis IQR-filtered mean, and majority vote on the `double` flag with
`doubles * 2 >= points.len()` (ties toward `true`). -/
def aggregate_points (points : List ViewportPoint) : ViewportPoint :=
  let xs := points.map (fun p => p.x)
  let ys := points.map (fun p => p.y)
  let doubles := (points.filter (fun p => p.double)).length
  { x := filtered_mean xs
    y := filtered_mean ys
    double := decide (doubles * 2 ≥ points.length) }

/-- Decidable equality for `Except` values (absent from the library), needed
to evaluate run results on concrete inputs. -/
instance {ε α : Type} [DecidableEq ε] [DecidableEq α] :
    DecidableEq (Except ε α) := fun x y =>
  match x, y with
  | .ok a, .ok b =>
    if h : a = b then .isTrue (by rw [h]) else .isFalse (by simp [h])
  | .error a, .error b =>
    if h : a = b then .isTrue (by rw [h]) else .isFalse (by simp [h])
  | .ok _, .error _ => .isFalse (by simp)
  | .error _, .ok _ => .isFalse (by simp)

/- ======================== PointResolver outcome contract ======================== -/

/-- The successful sample points collected from the join loop of
`call_openai_for_point` (src/src/openai_client.rs, lines 847-888): failed
samples are skipped, successful ones are pushed into `results`. -/
def collectSuccesses (outcomes : List (Except String ViewportPoint)) :
    List ViewportPoint :=
  outcomes.filterMap fun o =>
    match o with
    | .ok p => some p
    | .error _ => none

/-- Model of the result contract of `call_openai_for_point`
(src/src/openai_client.rs, lines 843-922), as a function of the multiset of
per-sample outcomes: if `results` is empty the call bails with
"All OpenAI samples failed", otherwise it returns `aggregate_points` of the
successful samples.  (Aggregation is order-insensitive — each axis is sorted
and the vote is a count — so the completion order of the concurrent tasks
does not matter; the rate-limit bookkeeping and the diagnostic dot map do not
affect the returned value.) -/
def call_openai_for_point (outcomes : List (Except String ViewportPoint)) :
    Except String ViewportPoint :=
  let results := collectSuccesses outcomes
  if results.isEmpty then .error "All OpenAI samples failed"
  else .ok (aggregate_points results)

/- ======================== RateLimitGovernor ======================== -/

/-- Model of `RateLimitTracker` (src/src/openai_client.rs, lines 21-24).
Timestamps are abstract naturals. -/
structure RateLimitTracker where
  consecutive_failures : ℕ
  last_failure_time : Option ℕ
deriving DecidableEq, Repr

/-- Model of `RateLimitTracker::new` (src/src/openai_client.rs, lines 27-32). -/
def RateLimitTracker.new : RateLimitTracker :=
  { consecutive_failures := 0, last_failure_time := none }

/-- Model of `record_failure` (src/src/openai_client.rs, lines 34-37); `now`
is the current time passed in from the clock. -/
def record_failure (s : RateLimitTracker) (now : ℕ) : RateLimitTracker :=
  { consecutive_failures := s.consecutive_failures + 1
    last_failure_time := some now }

/-- Model of `record_success` (src/src/openai_client.rs, lines 39-42). -/
def record_success (_s : RateLimitTracker) : RateLimitTracker :=
  { consecutive_failures := 0, last_failure_time := none }

/-- Model of `should_pause` (src/src/openai_client.rs, lines 44-50):
`thresholdEnv` is the parsed `OPENAI_RATE_LIMIT_PAUSE_THRESHOLD` environment
variable, defaulting to 3. -/
def should_pause (thresholdEnv : Option ℕ) (s : RateLimitTracker) : Bool :=
  decide (s.consecutive_failures ≥ thresholdEnv.getD 3)

/-- One mutation of the shared tracker: the two operations the callers ever
perform on it. -/
inductive TrackerOp where
  | failure (now : ℕ)
  | success
deriving DecidableEq, Repr

/-- Apply one tracker operation. -/
def applyOp (s : RateLimitTracker) : TrackerOp → RateLimitTracker
  | .failure now => record_failure s now
  | .success => record_success s

/-- Apply a sequence of tracker operations in order. -/
def runOps (s : RateLimitTracker) : List TrackerOp → RateLimitTracker
  | [] => s
  | op :: rest => runOps (applyOp s op) rest

/-- Specification-side count: the number of failures recorded after the most
recent success (starting from `acc` pending failures). -/
def countAfterLastSuccess : List TrackerOp → ℕ → ℕ
  | [], acc => acc
  | .success :: rest, _ => countAfterLastSuccess rest 0
  | .failure _ :: rest, acc => countAfterLastSuccess rest (acc + 1)

/- ======================== GeometryMapper ======================== -/

/-- Model of `NormalizationInputs` (src/src/coords.rs, lines 17-28). -/
structure NormalizationInputs where
  screenshot_w : ℤ
  screenshot_h : ℤ
  window_x : ℤ
  window_y : ℤ
  window_w : ℤ
  window_h : ℤ
deriving DecidableEq, Repr

/-- Rounding half away from zero of the fraction `p / q` (with `q > 0`):
the behaviour of `f64::round` on the exact value.  The source computes in
`f64`; this model is its exact-arithmetic idealization (on inputs whose
intermediate values are exactly representable, such as the concrete inputs
used below, the two agree). -/
def roundFrac (p q : ℤ) : ℤ :=
  if 0 ≤ p then Int.fdiv (2 * p + q) (2 * q)
  else -Int.fdiv (2 * (-p) + q) (2 * q)

/-- Rust's `i32::clamp(lo, hi)`, which panics when `lo > hi`; the panic is
modelled as `none`. -/
def clampPanic (v lo hi : ℤ) : Option ℤ :=
  if lo > hi then none else some (max lo (min v hi))

/-- The uniform scale `scale = min(window_w / screenshot_w,
window_h / screenshot_h)` of `viewport_to_screen`, as an exact fraction
(numerator, denominator): for positive dimensions,
`ww/sw ≤ wh/sh ↔ ww·sh ≤ wh·sw`. -/
def scaleFrac (inp : NormalizationInputs) : ℤ × ℤ :=
  if inp.window_w * inp.screenshot_h ≤ inp.window_h * inp.screenshot_w
  then (inp.window_w, inp.screenshot_w)
  else (inp.window_h, inp.screenshot_h)

/-- `drawn_w = (screenshot_w as f64 * scale).round()` of `viewport_to_screen`
(src/src/coords.rs, line 77), in exact arithmetic. -/
def drawnW (inp : NormalizationInputs) : ℤ :=
  roundFrac (inp.screenshot_w * (scaleFrac inp).1) (scaleFrac inp).2

/-- `drawn_h = (screenshot_h as f64 * scale).round()` of `viewport_to_screen`
(src/src/coords.rs, line 78), in exact arithmetic. -/
def drawnH (inp : NormalizationInputs) : ℤ :=
  roundFrac (inp.screenshot_h * (scaleFrac inp).1) (scaleFrac inp).2

/-- Model of `viewport_to_screen` (src/src/coords.rs, lines 60-105) in exact
arithmetic.  `x_off`/`y_off` are the parsed `CLICK_X_OFFSET_PX` /
`CLICK_Y_OFFSET_PX` environment nudges (0 when unset).  The degenerate guard
returns the window origin before any further computation.  The two
`clamp(0, drawn-1)` calls panic in Rust when `drawn - 1 < 0`; the panic is
modelled as `none`. -/
def viewport_to_screen (inp : NormalizationInputs) (x_view y_view : ℤ)
    (x_off y_off : ℤ) : Option (ℤ × ℤ) :=
  if inp.screenshot_w ≤ 0 ∨ inp.screenshot_h ≤ 0 ∨
     inp.window_w ≤ 0 ∨ inp.window_h ≤ 0 then
    some (inp.window_x, inp.window_y)
  else
    let n := (scaleFrac inp).1
    let d := (scaleFrac inp).2
    let dw := drawnW inp
    let dh := drawnH inp
    let pad_x := roundFrac (inp.window_w - dw) 2
    let pad_y := roundFrac (inp.window_h - dh) 2
    let dx := roundFrac (x_view * n) d
    let dy := roundFrac (y_view * n) d
    match clampPanic dx 0 (dw - 1), clampPanic dy 0 (dh - 1) with
    | some cx, some cy =>
        some (inp.window_x + pad_x + cx + x_off, inp.window_y + pad_y + cy + y_off)
    | _, _ => none

/- ======================== CandidateSelector heuristic fallback ======================== -/

/-- The data of a `Candidate` (src/src/openai_client.rs, lines 220-228) that
`choose_best_by_heuristic` inspects: visibility, disabled state and the
best-effort bounding rectangle `(x, y, w, h)`. -/
structure HeuristicCandidate where
  visible : Bool
  disabled : Bool
  rect : Option (ℤ × ℤ × ℤ × ℤ)
deriving DecidableEq, Repr

/-- `c.rect.map(|(_,_,w,h)| w.max(0)*h.max(0)).unwrap_or(0)`
(src/src/openai_client.rs, line 694). -/
def candArea (c : HeuristicCandidate) : ℤ :=
  match c.rect with
  | some r => max r.2.2.1 0 * max r.2.2.2 0
  | none => 0

/-- The `scored` vector built by the enumeration loop of
`choose_best_by_heuristic` (src/src/openai_client.rs, lines 689-697):
entries `(index, score, area)` for the visible, enabled candidates, in index
order starting at `i`.  The score of candidate `i` is `rank i`, an abstract
value in a linear order: `rank_score` computes an `f32` from the prompt, the
candidate text and the rectangle, and the selection logic depends only on
the ordering of those scores, so the score function is left abstract. -/
def scoredFrom {β : Type} (rank : ℕ → β) :
    ℕ → List HeuristicCandidate → List (ℕ × β × ℤ)
  | _, [] => []
  | i, c :: rest =>
    if c.visible && !c.disabled then
      (i, rank i, candArea c) :: scoredFrom rank (i + 1) rest
    else scoredFrom rank (i + 1) rest

/-- The full scored list, starting at index 0. -/
def scoredList {β : Type} (rank : ℕ → β) (cands : List HeuristicCandidate) :
    List (ℕ × β × ℤ) :=
  scoredFrom rank 0 cands

/-- The sort comparator of `choose_best_by_heuristic`
(src/src/openai_client.rs, lines 705-710): score descending, then area
descending, then index ascending.  (The source's
`partial_cmp(..).unwrap_or(Equal)` degenerates only on NaN scores, which
`rank_score` never produces; on a genuine linear order the comparator is the
total order written here.) -/
def cmpEntry {β : Type} [LinearOrder β] (a b : ℕ × β × ℤ) : Ordering :=
  if b.2.1 < a.2.1 then .lt
  else if a.2.1 < b.2.1 then .gt
  else if b.2.2 < a.2.2 then .lt
  else if a.2.2 < b.2.2 then .gt
  else if a.1 < b.1 then .lt
  else if b.1 < a.1 then .gt
  else .eq

/-- The "comes no later than" relation induced by `cmpEntry`: what the sort
establishes between adjacent elements. -/
def entryLe {β : Type} [LinearOrder β] (a b : ℕ × β × ℤ) : Bool :=
  cmpEntry a b != Ordering.gt

/-- Model of `choose_best_by_heuristic` (src/src/openai_client.rs, lines
687-715): score the visible, enabled candidates, sort by `cmpEntry`, return
the first entry's index; return 0 when no candidate survives the filter. -/
def choose_best_by_heuristic {β : Type} [LinearOrder β] (rank : ℕ → β)
    (cands : List HeuristicCandidate) : ℕ :=
  match (scoredList rank cands).mergeSort entryLe with
  | [] => 0
  | e :: _ => e.1

/- ======================== StepEngine and top-level driver ======================== -/

/-- The step variants of the plan's `Step` enum.  The variants are exactly
the arms of the exhaustive `match` in `execute_step` (src/src/main.rs, lines
37-195) — plus `beginClient`.  Modelled from the spec: the `Step` enum itself
lives in src/plan.rs, which is absent from the sources; the spec lists a
`BeginClient` client-boundary sentinel among the variants, so it is included
here, although no arm of `execute_step` handles it. -/
inductive StepKind where
  | beginClient
  | visitUrl
  | typeText
  | typeKey
  | typeOtp
  | resetZoom
  | wait
  | submitForm
  | clickStage
  | clickCheckbox
  | clickOptionsMenu
  | clickTemplate
  | clickCreate
  | clickInvoiceAmount
  | clickByDom
  | clickByLlm
  | updateSheetCell
  | stopClient
  | abort
deriving DecidableEq, Repr

/-- Modelled from the spec: a plan step (src/plan.rs is absent from the
sources).  Per the spec's data model, each step optionally carries a
validation question and, per boolean answer, an optional list of corrective
steps; an absent corrective list is encoded as the empty list (executing an
empty list and skipping the block are observationally identical). -/
inductive Step where
  | mk (kind : StepKind) (question : Option String)
      (onTrue : List Step) (onFalse : List Step)

/-- Modelled from the spec: the `validation_question` accessor of `Step`
(called at src/src/main.rs, line 212; defined in the absent src/plan.rs). -/
def Step.validation_question : Step → Option String
  | .mk _ q _ _ => q

/-- Modelled from the spec: the `validation_actions` accessor of `Step`
(called at src/src/main.rs, line 259; defined in the absent src/plan.rs). -/
def Step.validation_actions : Step → Bool → List Step
  | .mk _ _ oT oF, b => if b then oT else oF

/-- The kind of a step. -/
def Step.kind : Step → StepKind
  | .mk k _ _ _ => k

/-- The result of executing steps: the `anyhow::Result` value (errors are
their message strings, as produced by `anyhow::anyhow!`), the advanced
external-world clock, and the log of primitive actions executed, in order. -/
abbrev RunRes := Except String Unit × ℕ × List StepKind

/-- The external world: whether the OpenAI configuration is present
(`openai_cfg`), the outcome of the `t`-th primitive action on the browser /
input collaborators, the outcome of the `t`-th run-directory-plus-screenshot
preparation, and the `t`-th validation answer from `ask_boolean_question`
(`.error` when that call fails). -/
structure Env where
  cfgPresent : Bool
  act : ℕ → StepKind → Except String Unit
  shot : ℕ → Except String Unit
  ask : ℕ → Except String Bool

/-- Model of `execute_step` (src/src/main.rs, lines 31-197).
`Step::StopClient` returns `Err(anyhow!("STOP_CLIENT"))` and `Step::Abort`
returns `Err(anyhow!("ABORT_PROGRAM"))` (lines 187-194) — plain `anyhow`
errors, not a distinct variant.  `UpdateSheetCell` swallows sheet errors
(lines 182-185), `Wait` never fails, and the two LLM click steps are skipped
(with `Ok`) when no OpenAI configuration is present; every other arm consults
the external world and propagates its error with `?`.  `beginClient` is
modelled from the spec as a no-op marker (it has no arm in `execute_step`). -/
def execStep (env : Env) (t : ℕ) (k : StepKind) : Except String Unit :=
  match k with
  | .beginClient => .ok ()
  | .stopClient => .error "STOP_CLIENT"
  | .abort => .error "ABORT_PROGRAM"
  | .updateSheetCell => .ok ()
  | .wait => .ok ()
  | .clickByDom => if env.cfgPresent then env.act t .clickByDom else .ok ()
  | .clickByLlm => if env.cfgPresent then env.act t .clickByLlm else .ok ()
  | k => env.act t k

mutual
/-- Model of `execute_step_with_validation` (src/src/main.rs, lines 200-301):
run the primitive step; on success, when an OpenAI configuration is present
and the step carries a validation question, prepare the validation screenshot
(whose failure fails the step — the `?` on lines 218 and 241), ask the
boolean question (whose failure merely skips validation — lines 287-291),
and recursively execute the corrective steps for the returned answer,
propagating the first error (the `match` on lines 263-283 returns `Err(e)` in
every error branch, so it is plain propagation).  The clock advances by one
per external interaction; the log records the primitive actions executed. -/
def execWV (env : Env) : Step → ℕ → RunRes
  | .mk k q oT oF, t =>
    match execStep env t k with
    | .error e => (.error e, t + 1, [k])
    | .ok _ =>
      if !env.cfgPresent then (.ok (), t + 1, [k])
      else
        match q with
        | none => (.ok (), t + 1, [k])
        | some _ =>
          match env.shot (t + 1) with
          | .error e => (.error e, t + 2, [k])
          | .ok _ =>
            match env.ask (t + 2) with
            | .error _ => (.ok (), t + 3, [k])
            | .ok true =>
              match execList env oT (t + 3) with
              | (r2, t2, l2) => (r2, t2, k :: l2)
            | .ok false =>
              match execList env oF (t + 3) with
              | (r2, t2, l2) => (r2, t2, k :: l2)

/-- The corrective-step loop of `execute_step_with_validation`
(src/src/main.rs, lines 261-284): execute the steps in order, stopping at and
returning the first error. -/
def execList (env : Env) : List Step → ℕ → RunRes
  | [], t => (.ok (), t, [])
  | s :: rest, t =>
    match execWV env s t with
    | (.error e, t1, l1) => (.error e, t1, l1)
    | (.ok _, t1, l1) =>
      match execList env rest t1 with
      | (r2, t2, l2) => (r2, t2, l1 ++ l2)
end

/-- Model of the plan loop of `main` (src/src/main.rs, lines 325-345):
execute each top-level step with validation; on `Ok` continue with the next
step; on an error whose string is "STOP_CLIENT", `continue` with the next
step; on any other error string (including "ABORT_PROGRAM") return the
error. -/
def runPlan (env : Env) : List Step → ℕ → RunRes
  | [], t => (.ok (), t, [])
  | s :: rest, t =>
    match execWV env s t with
    | (.ok _, t1, l1) =>
      match runPlan env rest t1 with
      | (r2, t2, l2) => (r2, t2, l1 ++ l2)
    | (.error e, t1, l1) =>
      if e = "STOP_CLIENT" then
        match runPlan env rest t1 with
        | (r2, t2, l2) => (r2, t2, l1 ++ l2)
      else (.error e, t1, l1)

/-- A fully cooperative world: configuration present, every external action
succeeds, every validation answer is `true`. -/
def allOkEnv : Env :=
  { cfgPresent := true
    act := fun _ _ => .ok ()
    shot := fun _ => .ok ()
    ask := fun _ => .ok true }

/-- A world in which the browser's `goto` fails with an error whose message
text happens to be exactly "STOP_CLIENT" (an ordinary step failure with
coincidental text), and everything else succeeds. -/
def coincidenceEnv : Env :=
  { cfgPresent := true
    act := fun _ k => if k = .visitUrl then .error "STOP_CLIENT" else .ok ()
    shot := fun _ => .ok ()
    ask := fun _ => .ok true }

/-- A world in which `SubmitForm` fails with the ordinary error of
src/src/main.rs line 83, and everything else succeeds. -/
def hardFailEnv : Env :=
  { cfgPresent := true
    act := fun _ k =>
      if k = .submitForm then .error "No submit/create button found" else .ok ()
    shot := fun _ => .ok ()
    ask := fun _ => .ok true }

/-- A validated navigation step whose on-`true` corrective action is
`StopClient`: executing it under `allOkEnv` raises the skip-client signal
from nesting depth 1. -/
def sigStep : Step :=
  .mk .visitUrl (some "is the page ready?") [.mk .stopClient none [] []] []

/-- A plain follow-up step of the same client (not a `BeginClient`
sentinel). -/
def tailStep : Step := .mk .typeText none [] []

/-- A two-step plan for one client: a validated navigation step whose
on-`true` corrective action is `StopClient`, followed by a further step of
the same client (no `BeginClient` sentinel anywhere after the signal). -/
def stopMidClientPlan : List Step := [sigStep, tailStep]

/-- A two-step plan whose first step fails ordinarily (under
`coincidenceEnv`) and whose second step types text. -/
def coincidencePlan : List Step :=
  [ .mk .visitUrl none [] [], .mk .typeText none [] [] ]

/-- A single candidate that is neither visible nor enabled. -/
def heurIneligible : List HeuristicCandidate := [⟨false, true, none⟩]

/-- Two visible, enabled candidates: index 0 with a 10×10 rectangle, index 1
with no rectangle. -/
def heurSample : List HeuristicCandidate :=
  [⟨true, false, some (0, 0, 10, 10)⟩, ⟨true, false, none⟩]

/- ======================== Helper lemmas ======================== -/

/-- Characterization of an empty success list: no outcome is an `ok`. -/
theorem collectSuccesses_eq_nil (outs : List (Except String ViewportPoint)) :
    collectSuccesses outs = [] ↔ ∀ o ∈ outs, ∀ p, o ≠ Except.ok p := by
  induction outs with
  | nil => simp [collectSuccesses]
  | cons o rest ih =>
    cases o with
    | ok p => simp [collectSuccesses, List.filterMap_cons]
    | error e => simpa [collectSuccesses, List.filterMap_cons] using ih

/-- A successful outcome contributes its point to the collected successes. -/
theorem mem_collectSuccesses_of_ok {outs : List (Except String ViewportPoint)}
    {p : ViewportPoint} (h : Except.ok p ∈ outs) : p ∈ collectSuccesses outs := by
  unfold collectSuccesses
  exact List.mem_filterMap.mpr ⟨Except.ok p, h, rfl⟩

/- ======================== Claims ======================== -/

/-- Claim C3, counterexample.  The spec's worked IQR example is wrong on the
code: for the per-axis sample list `[10, 10, 10, 1000]`, `filtered_mean`
does NOT return 10 (it returns 257, the truncated mean of all four samples,
because Q3 is taken at index `3·4/4 = 3`, i.e. Q3 = 1000 itself, so the
upper Tukey fence `1000 + 1.5·990 = 2485` keeps the outlier). -/
theorem iqr_example_result_is_not_ten :
    filtered_mean [10, 10, 10, 1000] ≠ 10 := by decide

/-- Claim C3, amended.  Aggregating `[10, 10, 10, 1000]` with the code's IQR
rule keeps all four samples (every sample lies within the fences
`[-1475, 2485]` computed from Q1 = 10, Q3 = 1000) and returns the truncated
mean of all four, `1030 tdiv 4 = 257`. -/
theorem iqr_example_keeps_outlier_and_returns_257 :
    filtered_mean [10, 10, 10, 1000] = 257 ∧
    (List.insertionSort (· ≤ ·) ([10, 10, 10, 1000] : List ℤ)).filter
        (fun x => decide ((-1475 : ℤ) ≤ x) && decide (x ≤ 2485)) =
      [10, 10, 10, 1000] ∧
    filtered_mean [10, 10, 10, 1000] =
      Int.tdiv ([10, 10, 10, 1000] : List ℤ).sum 4 := by decide

/-- Claim C10.  `aggregate_points` is total on the empty list (which the
spec's non-emptiness precondition excludes): each axis's filtered mean of an
empty list is 0, and the tie-toward-double vote `0·2 ≥ 0` yields `true`, so
the result is `{x := 0, y := 0, double := true}` and no panic occurs. -/
theorem aggregate_points_empty_is_origin_double :
    aggregate_points [] = { x := 0, y := 0, double := true } := by decide

/-- Claim C6.  The rate-limit governor: `should_pause` is `true` exactly when
`consecutive_failures` has reached the configured threshold (default 3 when
the environment variable is absent or unparsable); `record_success` resets
the counter to zero regardless of prior state; and over any sequence of
`record_failure`/`record_success` operations the counter equals the number of
failures recorded since the most recent success. -/
theorem should_pause_threshold_and_success_resets
    (thresholdEnv : Option ℕ) (s : RateLimitTracker) (ops : List TrackerOp) :
    (should_pause thresholdEnv s = true ↔
      thresholdEnv.getD 3 ≤ s.consecutive_failures) ∧
    (record_success s).consecutive_failures = 0 ∧
    (runOps s ops).consecutive_failures =
      countAfterLastSuccess ops s.consecutive_failures := by
  refine ⟨by simp [should_pause], rfl, ?_⟩
  induction ops generalizing s with
  | nil => rfl
  | cons op rest ih =>
    cases op with
    | failure now =>
      simpa [runOps, applyOp, record_failure, countAfterLastSuccess] using
        ih (record_failure s now)
    | success =>
      simpa [runOps, applyOp, record_success, countAfterLastSuccess] using
        ih (record_success s)

/-- Claim C6, witness: with threshold 2, a tracker at 2 consecutive failures
pauses; a success after two failures resets the counter to 0. -/
theorem should_pause_threshold_witness :
    (should_pause (some 2) ⟨2, some 9⟩ = true ↔ 2 ≤ 2) ∧
    (record_success ⟨2, some 9⟩).consecutive_failures = 0 ∧
    (runOps ⟨5, none⟩ [.failure 1, .success, .failure 2]).consecutive_failures =
      countAfterLastSuccess [.failure 1, .success, .failure 2] 5 :=
  should_pause_threshold_and_success_resets (some 2) ⟨2, some 9⟩
    [.failure 1, .success, .failure 2]

/-- Claim C8.  The aggregated `double` flag is the majority vote with ties
toward `true`: it is `true` exactly when the number of `double` samples is at
least half the list length (stated over `ℚ`, so "half" is exact). -/
theorem double_flag_majority_ties_toward_double
    (ps : List ViewportPoint) (_hne : ps ≠ []) :
    ((aggregate_points ps).double = true ↔
      ((ps.length : ℚ) / 2 ≤ ((ps.filter fun p => p.double).length : ℚ))) ∧
    (aggregate_points [⟨0, 0, true⟩, ⟨0, 0, true⟩, ⟨0, 0, false⟩]).double = true ∧
    (aggregate_points [⟨0, 0, true⟩, ⟨0, 0, false⟩]).double = true := by
  refine ⟨?_, by decide, by decide⟩
  unfold aggregate_points
  simp only [decide_eq_true_eq, ge_iff_le]
  rw [div_le_iff₀ (by norm_num : (0 : ℚ) < 2)]
  exact_mod_cast Iff.rfl

/-- Claim C8, witness: the tie `[true, false]` resolves to `true`. -/
theorem double_flag_majority_witness :
    ([⟨0, 0, true⟩, ⟨0, 0, false⟩] : List ViewportPoint) ≠ [] ∧
    ((aggregate_points [⟨0, 0, true⟩, ⟨0, 0, false⟩]).double = true ↔
      ((([⟨0, 0, true⟩, ⟨0, 0, false⟩] : List ViewportPoint).length : ℚ) / 2 ≤
        ((([⟨0, 0, true⟩, ⟨0, 0, false⟩] : List ViewportPoint).filter
            fun p => p.double).length : ℚ))) :=
  ⟨by decide,
    (double_flag_majority_ties_toward_double
        [⟨0, 0, true⟩, ⟨0, 0, false⟩] (by decide)).1⟩

/-- Claim C5.  A point-resolution call fails with "All OpenAI samples failed"
if and only if every per-sample outcome is an error; and whenever at least
one sample succeeds, the call returns the aggregate of exactly the successful
samples. -/
theorem all_samples_failed_iff_and_survivors_kept
    (outs : List (Except String ViewportPoint)) (p : ViewportPoint) :
    (call_openai_for_point outs = .error "All OpenAI samples failed" ↔
      ∀ o ∈ outs, ∀ q, o ≠ Except.ok q) ∧
    (Except.ok p ∈ outs →
      call_openai_for_point outs = .ok (aggregate_points (collectSuccesses outs))) := by
  constructor
  · unfold call_openai_for_point
    by_cases hc : collectSuccesses outs = []
    · have hr := (collectSuccesses_eq_nil outs).mp hc
      simp only [hc, List.isEmpty_nil, if_true]
      exact iff_of_true (by trivial) hr
    · have hie : (collectSuccesses outs).isEmpty = false := by
        simpa [List.isEmpty_iff] using hc
      simp only [hie, Bool.false_eq_true, if_false]
      constructor
      · intro h
        exact Except.noConfusion h
      · intro hall
        exact absurd ((collectSuccesses_eq_nil outs).mpr hall) hc
  · intro hp
    have hmem := mem_collectSuccesses_of_ok hp
    have hne2 : collectSuccesses outs ≠ [] := by
      intro h0
      rw [h0] at hmem
      cases hmem
    have hie : (collectSuccesses outs).isEmpty = false := by
      simpa [List.isEmpty_iff] using hne2
    unfold call_openai_for_point
    simp [hie]

/-- Claim C5, witness: one failed and one successful sample — the call
returns the aggregate of the single success. -/
theorem all_samples_failed_witness :
    Except.ok (⟨4, 5, false⟩ : ViewportPoint) ∈
      [Except.error "boom", Except.ok (⟨4, 5, false⟩ : ViewportPoint)] ∧
    call_openai_for_point [Except.error "boom", Except.ok ⟨4, 5, false⟩] =
      .ok (aggregate_points
        (collectSuccesses [Except.error "boom", Except.ok ⟨4, 5, false⟩])) :=
  ⟨by simp,
    (all_samples_failed_iff_and_survivors_kept
        [Except.error "boom", Except.ok ⟨4, 5, false⟩] ⟨4, 5, false⟩).2 (by simp)⟩

/-- Claim C7.  For a non-empty sample list with fewer than 4 elements,
`filtered_mean` is the plain arithmetic mean under truncating integer
division and never takes the quantile path; in particular `aggregate_points`
of a single-element list returns that element unchanged. -/
theorem small_sample_plain_mean_and_singleton
    (v : List ℤ) (h1 : v ≠ []) (h2 : v.length < 4) (p : ViewportPoint) :
    filtered_mean v = Int.tdiv v.sum (v.length : ℤ) ∧
    aggregate_points [p] = p := by
  constructor
  · have hie : v.isEmpty = false := by simpa [List.isEmpty_iff] using h1
    have hperm := List.perm_insertionSort (· ≤ ·) v
    have hlen : (List.insertionSort (· ≤ ·) v).length = v.length :=
      hperm.length_eq
    have hsum : (List.insertionSort (· ≤ ·) v).sum = v.sum := hperm.sum_eq
    unfold filtered_mean
    simp [hie, hlen, hsum, h2]
  · obtain ⟨x, y, d⟩ := p
    cases d <;>
      simp [aggregate_points, filtered_mean, List.insertionSort,
        List.orderedInsert, Int.tdiv_one]

/-- Claim C7, witness: `[5, 6]` has 2 < 4 samples, so the mean is
`11 tdiv 2 = 5`; a singleton aggregates to itself. -/
theorem small_sample_plain_mean_witness :
    (([5, 6] : List ℤ) ≠ [] ∧ ([5, 6] : List ℤ).length < 4) ∧
    (filtered_mean [5, 6] = Int.tdiv ([5, 6] : List ℤ).sum 2 ∧
      aggregate_points [⟨7, 8, true⟩] = ⟨7, 8, true⟩) :=
  ⟨⟨by decide, by decide⟩,
    small_sample_plain_mean_and_singleton [5, 6] (by decide) (by decide) ⟨7, 8, true⟩⟩

/-- Claim C1, counterexample.  Under a fully cooperative world, the plan
`[sigStep, tailStep]` raises `StopClient` from a corrective action of its
first step; the top-level driver then executes `tailStep` — a remaining step
of the *same* client — even though no `BeginClient` sentinel occurs anywhere
in the log.  The claimed skip-to-next-sentinel behaviour would have executed
nothing after the signal (there is no `BeginClient` before the end of the
plan), but the driver's `continue` resumes at the immediately following
top-level step. -/
theorem stop_client_does_not_skip_to_sentinel :
    runPlan allOkEnv stopMidClientPlan 0 =
      (.ok (), 5, [.visitUrl, .stopClient, .typeText]) ∧
    StepKind.beginClient ∉ (runPlan allOkEnv stopMidClientPlan 0).2.2 := by
  decide

/-- Claim C1, amended.  When a step's execution (at any corrective-action
nesting depth) produces the `STOP_CLIENT` error: (a) within a corrective
list, the remaining sibling steps are not executed and the signal propagates
unchanged; (b) the top-level driver abandons the rest of the current
top-level step and resumes at the immediately following top-level step of the
plan — it does not scan forward for a `BeginClient` sentinel, so remaining
top-level steps of the same client do run. -/
theorem stop_client_continues_at_next_top_level_step
    (env : Env) (s : Step) (sib rest : List Step) (t t1 : ℕ)
    (l1 : List StepKind)
    (h : execWV env s t = (.error "STOP_CLIENT", t1, l1)) :
    execList env (s :: sib) t = (.error "STOP_CLIENT", t1, l1) ∧
    runPlan env (s :: rest) t =
      ((runPlan env rest t1).1, (runPlan env rest t1).2.1,
        l1 ++ (runPlan env rest t1).2.2) := by
  constructor
  · simp only [execList, h]
  · simp only [runPlan, h]
    simp

/-- Claim C1, witness: applying the amended theorem to the concrete signal
step and tail step. -/
theorem stop_client_continues_witness :
    execWV allOkEnv sigStep 0 =
      (.error "STOP_CLIENT", 4, [.visitUrl, .stopClient]) ∧
    (execList allOkEnv (sigStep :: [tailStep]) 0 =
        (.error "STOP_CLIENT", 4, [.visitUrl, .stopClient]) ∧
      runPlan allOkEnv (sigStep :: [tailStep]) 0 =
        ((runPlan allOkEnv [tailStep] 4).1, (runPlan allOkEnv [tailStep] 4).2.1,
          [StepKind.visitUrl, .stopClient] ++
            (runPlan allOkEnv [tailStep] 4).2.2)) :=
  ⟨by decide,
    stop_client_continues_at_next_top_level_step allOkEnv sigStep [tailStep]
      [tailStep] 0 4 [.visitUrl, .stopClient] (by decide)⟩

/-- Claim C2, counterexample.  An ordinary step failure whose error text
happens to be exactly "STOP_CLIENT" (here: the browser navigation of a plain,
non-signal `VisitUrl` step fails with that message) IS mistaken for the
skip-client signal: the run does not stop, and the next step executes.  The
claim's by-type recognition would have made this failure stop the whole
run. -/
theorem ordinary_failure_with_signal_text_escapes :
    coincidenceEnv.act 0 .visitUrl = .error "STOP_CLIENT" ∧
    runPlan coincidenceEnv coincidencePlan 0 =
      (.ok (), 2, [.visitUrl, .typeText]) := by decide

/-- Claim C2, amended.  The step engine and driver recognize the two
control-flow signals by comparing the error's message string with
"STOP_CLIENT" / "ABORT_PROGRAM" (via `e.to_string()`), not by a distinct
result variant: a failure whose text differs from "STOP_CLIENT" — including
"ABORT_PROGRAM" and every ordinary error — stops the whole run with that
error, while any failure whose text equals "STOP_CLIENT", whatever its
origin, is treated as the skip-client signal. -/
theorem signals_recognized_by_error_string
    (env : Env) (s : Step) (rest : List Step) (t t1 : ℕ) (e : String)
    (l1 : List StepKind)
    (h : execWV env s t = (.error e, t1, l1)) :
    (e ≠ "STOP_CLIENT" → runPlan env (s :: rest) t = (.error e, t1, l1)) ∧
    (e = "STOP_CLIENT" → runPlan env (s :: rest) t =
      ((runPlan env rest t1).1, (runPlan env rest t1).2.1,
        l1 ++ (runPlan env rest t1).2.2)) := by
  constructor
  · intro hne
    simp only [runPlan, h]
    rw [if_neg hne]
  · intro heq
    subst heq
    simp only [runPlan, h]
    simp

/-- Claim C2, witness: a `SubmitForm` step failing with the ordinary message
"No submit/create button found" stops the whole run before the next step. -/
theorem signals_recognized_witness :
    execWV hardFailEnv (Step.mk .submitForm none [] []) 0 =
      (.error "No submit/create button found", 1, [.submitForm]) ∧
    runPlan hardFailEnv (Step.mk .submitForm none [] [] :: [tailStep]) 0 =
      (.error "No submit/create button found", 1, [.submitForm]) :=
  ⟨by decide,
    (signals_recognized_by_error_string hardFailEnv (Step.mk .submitForm none [] [])
        [tailStep] 0 1 "No submit/create button found" [.submitForm]
        (by decide)).1 (by decide)⟩

/-- For a nonnegative numerator and positive denominator, rounding the
fraction half away from zero is nonnegative. -/
theorem roundFrac_nonneg {p q : ℤ} (hp : 0 ≤ p) (hq : 0 < q) :
    0 ≤ roundFrac p q := by
  unfold roundFrac
  rw [if_pos hp, Int.fdiv_eq_ediv _ (by omega)]
  exact Int.ediv_nonneg (by omega) (by omega)

/-- If `p / q ≤ B` exactly (i.e. `p ≤ B·q`), then rounding `p / q` half away
from zero also stays at most `B` (for `0 ≤ p`, `0 < q`). -/
theorem roundFrac_le {p q B : ℤ} (hp : 0 ≤ p) (hq : 0 < q) (h : p ≤ B * q) :
    roundFrac p q ≤ B := by
  unfold roundFrac
  rw [if_pos hp, Int.fdiv_eq_ediv _ (by omega)]
  have h2q : (0 : ℤ) < 2 * q := by omega
  have hring : (B + 1) * (2 * q) = 2 * (B * q) + 2 * q := by ring
  have hlt : 2 * p + q < (B + 1) * (2 * q) := by
    rw [hring]
    linarith
  have := (Int.ediv_lt_iff_lt_mul h2q).mpr hlt
  omega

/-- Claim C4, counterexample.  With every dimension positive (a 1×4
screenshot letterboxed into an 8×1 window at the origin), the uniform scale
is 1/4, the drawn image width rounds to 0, and `dx.clamp(0, drawn_w - 1)`
is `clamp(0, -1)` — which panics in Rust (`none` in the model).  The claim's
promise of a point inside `[window_x, window_x+window_w) ×
[window_y, window_y+window_h)` fails for this positive-dimension input. -/
theorem degenerate_drawn_image_panics :
    (0 : ℤ) < 1 ∧ (0 : ℤ) < 4 ∧ (0 : ℤ) < 8 ∧ (0 : ℤ) < 1 ∧
    viewport_to_screen ⟨1, 4, 0, 0, 8, 1⟩ 0 0 0 0 = none := by decide

/-- Claim C4, amended.  With all four dimensions positive, zero calibration
offsets, and a non-degenerate drawn image (both rounded drawn extents at
least 1), `viewport_to_screen` returns a point inside
`[window_x, window_x+window_w) × [window_y, window_y+window_h)`; when the
drawn image rounds to zero width or height the `clamp` call panics instead
(see the counterexample).  With any of the four dimensions ≤ 0 the result is
exactly `(window_x, window_y)` for every viewport point and any offsets. -/
theorem viewport_to_screen_in_window_or_origin :
    (∀ (inp : NormalizationInputs) (xv yv : ℤ),
      0 < inp.screenshot_w → 0 < inp.screenshot_h →
      0 < inp.window_w → 0 < inp.window_h →
      1 ≤ drawnW inp → 1 ≤ drawnH inp →
      ∃ px py, viewport_to_screen inp xv yv 0 0 = some (px, py) ∧
        inp.window_x ≤ px ∧ px < inp.window_x + inp.window_w ∧
        inp.window_y ≤ py ∧ py < inp.window_y + inp.window_h) ∧
    (∀ (inp : NormalizationInputs) (xv yv xo yo : ℤ),
      inp.screenshot_w ≤ 0 ∨ inp.screenshot_h ≤ 0 ∨
        inp.window_w ≤ 0 ∨ inp.window_h ≤ 0 →
      viewport_to_screen inp xv yv xo yo = some (inp.window_x, inp.window_y)) := by
  constructor
  · intro inp xv yv hsw hsh hww hwh hdw hdh
    have hscale : 0 < (scaleFrac inp).2 ∧ 0 < (scaleFrac inp).1 ∧
        inp.screenshot_w * (scaleFrac inp).1 ≤ inp.window_w * (scaleFrac inp).2 ∧
        inp.screenshot_h * (scaleFrac inp).1 ≤ inp.window_h * (scaleFrac inp).2 := by
      unfold scaleFrac
      split_ifs with hc
      · refine ⟨hsw, hww, le_of_eq (mul_comm _ _), ?_⟩
        calc inp.screenshot_h * inp.window_w
            = inp.window_w * inp.screenshot_h := mul_comm _ _
          _ ≤ inp.window_h * inp.screenshot_w := hc
      · push_neg at hc
        refine ⟨hsh, hwh, ?_, le_of_eq (mul_comm _ _)⟩
        calc inp.screenshot_w * inp.window_h
            = inp.window_h * inp.screenshot_w := mul_comm _ _
          _ ≤ inp.window_w * inp.screenshot_h := le_of_lt hc
    obtain ⟨hd, hn, hxle, hyle⟩ := hscale
    have hdwle : drawnW inp ≤ inp.window_w := by
      unfold drawnW
      exact roundFrac_le (mul_nonneg hsw.le hn.le) hd hxle
    have hdhle : drawnH inp ≤ inp.window_h := by
      unfold drawnH
      exact roundFrac_le (mul_nonneg hsh.le hn.le) hd hyle
    have hpx0 : 0 ≤ roundFrac (inp.window_w - drawnW inp) 2 :=
      roundFrac_nonneg (by omega) (by omega)
    have hpxle : roundFrac (inp.window_w - drawnW inp) 2 ≤
        inp.window_w - drawnW inp :=
      roundFrac_le (by omega) (by omega) (by omega)
    have hpy0 : 0 ≤ roundFrac (inp.window_h - drawnH inp) 2 :=
      roundFrac_nonneg (by omega) (by omega)
    have hpyle : roundFrac (inp.window_h - drawnH inp) 2 ≤
        inp.window_h - drawnH inp :=
      roundFrac_le (by omega) (by omega) (by omega)
    have hcx : clampPanic (roundFrac (xv * (scaleFrac inp).1) (scaleFrac inp).2)
        0 (drawnW inp - 1) =
        some (max 0 (min (roundFrac (xv * (scaleFrac inp).1) (scaleFrac inp).2)
          (drawnW inp - 1))) := by
      unfold clampPanic
      rw [if_neg (by omega)]
    have hcy : clampPanic (roundFrac (yv * (scaleFrac inp).1) (scaleFrac inp).2)
        0 (drawnH inp - 1) =
        some (max 0 (min (roundFrac (yv * (scaleFrac inp).1) (scaleFrac inp).2)
          (drawnH inp - 1))) := by
      unfold clampPanic
      rw [if_neg (by omega)]
    have hcx0 : 0 ≤ max 0 (min (roundFrac (xv * (scaleFrac inp).1)
        (scaleFrac inp).2) (drawnW inp - 1)) := le_max_left _ _
    have hcxle : max 0 (min (roundFrac (xv * (scaleFrac inp).1)
        (scaleFrac inp).2) (drawnW inp - 1)) ≤ drawnW inp - 1 :=
      max_le (by omega) (min_le_right _ _)
    have hcy0 : 0 ≤ max 0 (min (roundFrac (yv * (scaleFrac inp).1)
        (scaleFrac inp).2) (drawnH inp - 1)) := le_max_left _ _
    have hcyle : max 0 (min (roundFrac (yv * (scaleFrac inp).1)
        (scaleFrac inp).2) (drawnH inp - 1)) ≤ drawnH inp - 1 :=
      max_le (by omega) (min_le_right _ _)
    refine ⟨inp.window_x + roundFrac (inp.window_w - drawnW inp) 2 +
        max 0 (min (roundFrac (xv * (scaleFrac inp).1) (scaleFrac inp).2)
          (drawnW inp - 1)) + 0,
      inp.window_y + roundFrac (inp.window_h - drawnH inp) 2 +
        max 0 (min (roundFrac (yv * (scaleFrac inp).1) (scaleFrac inp).2)
          (drawnH inp - 1)) + 0, ?_, by omega, by omega, by omega, by omega⟩
    simp only [viewport_to_screen]
    rw [if_neg (by push_neg; exact ⟨by omega, by omega, by omega, by omega⟩)]
    rw [hcx, hcy]
  · intro inp xv yv xo yo hdeg
    unfold viewport_to_screen
    rw [if_pos hdeg]

/-- Claim C4, witness: a 100×100 screenshot in a 200×200 window at (7, 9)
maps (50, 50) inside the window; a zero-width screenshot maps to the window
origin. -/
theorem viewport_to_screen_witness :
    (1 ≤ drawnW ⟨100, 100, 7, 9, 200, 200⟩ ∧
      1 ≤ drawnH ⟨100, 100, 7, 9, 200, 200⟩) ∧
    (∃ px py, viewport_to_screen ⟨100, 100, 7, 9, 200, 200⟩ 50 50 0 0 =
        some (px, py) ∧
      (7 : ℤ) ≤ px ∧ px < 7 + 200 ∧ (9 : ℤ) ≤ py ∧ py < 9 + 200) ∧
    viewport_to_screen ⟨0, 100, 7, 9, 200, 200⟩ 50 50 3 4 = some (7, 9) :=
  ⟨⟨by decide, by decide⟩,
    viewport_to_screen_in_window_or_origin.1 ⟨100, 100, 7, 9, 200, 200⟩ 50 50
      (by decide) (by decide) (by decide) (by decide) (by decide) (by decide),
    viewport_to_screen_in_window_or_origin.2 ⟨0, 100, 7, 9, 200, 200⟩ 50 50 3 4
      (Or.inl (by decide))⟩

/-- Unfolding of `entryLe` into the lexicographic order it implements:
score descending, then area descending, then index ascending. -/
theorem entryLe_iff {β : Type} [LinearOrder β] (a b : ℕ × β × ℤ) :
    entryLe a b = true ↔
      (b.2.1 < a.2.1 ∨
        (a.2.1 = b.2.1 ∧
          (b.2.2 < a.2.2 ∨ (a.2.2 = b.2.2 ∧ a.1 ≤ b.1)))) := by
  simp only [entryLe, cmpEntry]
  split_ifs with h1 h2 h3 h4 h5 h6
  · exact iff_of_true rfl (Or.inl h1)
  · refine iff_of_false (by decide) ?_
    rintro (h | ⟨he, _⟩)
    · exact h1 h
    · exact absurd h2 (by rw [he]; exact lt_irrefl _)
  · exact iff_of_true rfl
      (Or.inr ⟨le_antisymm (not_lt.mp h1) (not_lt.mp h2), Or.inl h3⟩)
  · refine iff_of_false (by decide) ?_
    rintro (h | ⟨_, h | ⟨he2, _⟩⟩)
    · exact h1 h
    · exact h3 h
    · exact absurd h4 (by rw [he2]; exact lt_irrefl _)
  · exact iff_of_true rfl
      (Or.inr ⟨le_antisymm (not_lt.mp h1) (not_lt.mp h2),
        Or.inr ⟨le_antisymm (not_lt.mp h3) (not_lt.mp h4), le_of_lt h5⟩⟩)
  · refine iff_of_false (by decide) ?_
    rintro (h | ⟨_, h | ⟨_, hle⟩⟩)
    · exact h1 h
    · exact h3 h
    · exact absurd hle (not_le.mpr h6)
  · exact iff_of_true rfl
      (Or.inr ⟨le_antisymm (not_lt.mp h1) (not_lt.mp h2),
        Or.inr ⟨le_antisymm (not_lt.mp h3) (not_lt.mp h4), not_lt.mp h6⟩⟩)

/-- The comparator relation is reflexive. -/
theorem entryLe_refl {β : Type} [LinearOrder β] (a : ℕ × β × ℤ) :
    entryLe a a = true :=
  (entryLe_iff a a).mpr (Or.inr ⟨rfl, Or.inr ⟨rfl, le_refl _⟩⟩)

/-- The comparator relation is total. -/
theorem entryLe_total {β : Type} [LinearOrder β] (a b : ℕ × β × ℤ) :
    (entryLe a b || entryLe b a) = true := by
  rw [Bool.or_eq_true, entryLe_iff, entryLe_iff]
  rcases lt_trichotomy a.2.1 b.2.1 with h | h | h
  · exact Or.inr (Or.inl h)
  · rcases lt_trichotomy a.2.2 b.2.2 with h2 | h2 | h2
    · exact Or.inr (Or.inr ⟨h.symm, Or.inl h2⟩)
    · rcases le_total a.1 b.1 with h3 | h3
      · exact Or.inl (Or.inr ⟨h, Or.inr ⟨h2, h3⟩⟩)
      · exact Or.inr (Or.inr ⟨h.symm, Or.inr ⟨h2.symm, h3⟩⟩)
    · exact Or.inl (Or.inr ⟨h, Or.inl h2⟩)
  · exact Or.inl (Or.inl h)

/-- The comparator relation is transitive. -/
theorem entryLe_trans {β : Type} [LinearOrder β] (a b c : ℕ × β × ℤ) :
    entryLe a b = true → entryLe b c = true → entryLe a c = true := by
  rw [entryLe_iff, entryLe_iff, entryLe_iff]
  rintro (hab | ⟨hab, hab2⟩) (hbc | ⟨hbc, hbc2⟩)
  · exact Or.inl (hbc.trans hab)
  · exact Or.inl (hbc ▸ hab)
  · exact Or.inl (hab.symm ▸ hbc)
  · rcases hab2 with h2 | ⟨h2, h3⟩ <;> rcases hbc2 with h2p | ⟨h2p, h3p⟩
    · exact Or.inr ⟨hab.trans hbc, Or.inl (h2p.trans h2)⟩
    · exact Or.inr ⟨hab.trans hbc, Or.inl (h2p ▸ h2)⟩
    · exact Or.inr ⟨hab.trans hbc, Or.inl (h2.symm ▸ h2p)⟩
    · exact Or.inr ⟨hab.trans hbc, Or.inr ⟨h2.trans h2p, h3.trans h3p⟩⟩

/-- The comparator relation is antisymmetric: mutually comparable entries are
equal (scores, areas and indices all coincide). -/
theorem entryLe_antisymm {β : Type} [LinearOrder β] (a b : ℕ × β × ℤ)
    (h1 : entryLe a b = true) (h2 : entryLe b a = true) : a = b := by
  rw [entryLe_iff] at h1 h2
  rcases h1 with hab | ⟨hab, hab2⟩
  · rcases h2 with hba | ⟨hba, _⟩
    · exact absurd hba (lt_asymm hab)
    · exact absurd (hba ▸ hab) (lt_irrefl _)
  · rcases h2 with hba | ⟨_, hba2⟩
    · exact absurd (hab ▸ hba) (lt_irrefl _)
    · rcases hab2 with h3 | ⟨h3, h4⟩
      · rcases hba2 with h3p | ⟨h3p, _⟩
        · exact absurd h3p (lt_asymm h3)
        · exact absurd (h3p ▸ h3) (lt_irrefl _)
      · rcases hba2 with h3p | ⟨_, h4p⟩
        · exact absurd (h3 ▸ h3p) (lt_irrefl _)
        · exact Prod.ext_iff.mpr ⟨le_antisymm h4 h4p,
            Prod.ext_iff.mpr ⟨hab, h3⟩⟩

/-- The head of a list sorted by `entryLe` is `entryLe`-below every element
of the list. -/
theorem pairwise_head_le {β : Type} [LinearOrder β] {l : List (ℕ × β × ℤ)}
    {e : ℕ × β × ℤ} (hp : l.Pairwise (fun x y => entryLe x y = true))
    (hh : l.head? = some e) : ∀ x ∈ l, entryLe e x = true := by
  cases l with
  | nil => cases hh
  | cons a t =>
    obtain rfl : a = e := by simpa using hh
    intro x hx
    rcases List.mem_cons.mp hx with rfl | hxt
    · exact entryLe_refl x
    · exact (List.pairwise_cons.mp hp).1 x hxt

/-- A candidate list with no visible, enabled element produces an empty
scored list. -/
theorem scoredFrom_eq_nil {β : Type} (rank : ℕ → β) (i : ℕ)
    (cands : List HeuristicCandidate)
    (h : ∀ c ∈ cands, c.visible = false ∨ c.disabled = true) :
    scoredFrom rank i cands = [] := by
  induction cands generalizing i with
  | nil => rfl
  | cons c rest ih =>
    have hc := h c (List.mem_cons_self c rest)
    have hcf : (c.visible && !c.disabled) = false := by
      rcases hc with h1 | h1 <;> simp [h1]
    simp only [scoredFrom, hcf, Bool.false_eq_true, if_false]
    exact ih (i + 1) (fun d hd => h d (List.mem_cons_of_mem c hd))

/-- Claim C9.  The heuristic fallback of the candidate selector: (a) when no
candidate is both visible and enabled, it returns index 0; (b) otherwise the
chosen index heads an entry of the scored list that is `entryLe`-maximal —
i.e. best under (score descending, area descending, index ascending); and
(c) the chosen index is independent of how the scored list is arranged and
sorted: any `entryLe`-sorted permutation of the scored list begins with an
entry carrying the chosen index.  Since the output is thus uniquely
determined by the (prompt-induced) score function and the candidate list,
repeated invocation on identical inputs returns the same index.  The `f32`
score `rank_score` is abstracted into an arbitrary linearly ordered score
`rank`, over which everything is quantified. -/
theorem heuristic_choice_deterministic_lex_best :
    ∀ (β : Type) [LinearOrder β] (rank : ℕ → β)
      (cands : List HeuristicCandidate),
      ((∀ c ∈ cands, c.visible = false ∨ c.disabled = true) →
        choose_best_by_heuristic rank cands = 0) ∧
      (scoredList rank cands ≠ [] →
        ∃ s a, (choose_best_by_heuristic rank cands, s, a) ∈ scoredList rank cands ∧
          ∀ e ∈ scoredList rank cands,
            entryLe (choose_best_by_heuristic rank cands, s, a) e = true) ∧
      (∀ (l : List (ℕ × β × ℤ)) (e : ℕ × β × ℤ),
        l.Perm (scoredList rank cands) →
        l.Pairwise (fun x y => entryLe x y = true) →
        l.head? = some e → e.1 = choose_best_by_heuristic rank cands) := by
  intro β inst rank cands
  have hperm := List.mergeSort_perm (scoredList rank cands) entryLe
  have hsorted :=
    List.sorted_mergeSort (entryLe_trans) (entryLe_total)
      (scoredList rank cands)
  refine ⟨?_, ?_, ?_⟩
  · intro hall
    have hnil : scoredList rank cands = [] :=
      scoredFrom_eq_nil rank 0 cands hall
    unfold choose_best_by_heuristic
    rw [hnil]
    simp [List.mergeSort_nil]
  · intro hne
    cases hms : (scoredList rank cands).mergeSort entryLe with
    | nil =>
      rw [hms] at hperm
      exact absurd hperm.symm.eq_nil hne
    | cons e t =>
      have hchoose : choose_best_by_heuristic rank cands = e.1 := by
        unfold choose_best_by_heuristic
        rw [hms]
      have heMs : e ∈ (scoredList rank cands).mergeSort entryLe := by
        rw [hms]
        exact List.mem_cons_self e t
      have heSc : e ∈ scoredList rank cands := hperm.mem_iff.mp heMs
      rw [hchoose]
      refine ⟨e.2.1, e.2.2, heSc, ?_⟩
      intro x hx
      have hxms : x ∈ (scoredList rank cands).mergeSort entryLe :=
        hperm.mem_iff.mpr hx
      have hhead : ((scoredList rank cands).mergeSort entryLe).head? = some e := by
        rw [hms]
        rfl
      exact pairwise_head_le hsorted hhead x hxms
  · intro l e hpl hpw hhead
    by_cases hsc : scoredList rank cands = []
    · rw [hsc] at hpl
      have hl : l = [] := hpl.eq_nil
      rw [hl] at hhead
      cases hhead
    · cases hms : (scoredList rank cands).mergeSort entryLe with
      | nil =>
        rw [hms] at hperm
        exact absurd hperm.symm.eq_nil hsc
      | cons m t =>
        have hchoose : choose_best_by_heuristic rank cands = m.1 := by
          unfold choose_best_by_heuristic
          rw [hms]
        have hmMs : m ∈ (scoredList rank cands).mergeSort entryLe := by
          rw [hms]
          exact List.mem_cons_self m t
        have hmL : m ∈ l := hpl.mem_iff.mpr (hperm.mem_iff.mp hmMs)
        have heL : e ∈ l := by
          cases l with
          | nil => cases hhead
          | cons a b =>
            obtain rfl : a = e := by simpa using hhead
            exact List.mem_cons_self a b
        have heMs : e ∈ (scoredList rank cands).mergeSort entryLe :=
          hperm.mem_iff.mpr (hpl.mem_iff.mp heL)
        have hmsHead : ((scoredList rank cands).mergeSort entryLe).head? = some m := by
          rw [hms]
          rfl
        have h1 : entryLe e m = true := pairwise_head_le hpw hhead m hmL
        have h2 : entryLe m e = true :=
          pairwise_head_le hsorted hmsHead e heMs
        have heq : e = m := entryLe_antisymm e m h1 h2
        rw [hchoose, heq]

/-- Claim C9, witness: over score `rank i = i`, the ineligible singleton
yields index 0; for `heurSample` the scored list is nonempty, and the sorted
arrangement `[(1, 1, 0), (0, 0, 100)]` of the scored list begins with the
chosen index. -/
theorem heuristic_choice_witness :
    choose_best_by_heuristic (fun i => (i : ℤ)) heurIneligible = 0 ∧
    (∃ s a, (choose_best_by_heuristic (fun i => (i : ℤ)) heurSample, s, a) ∈
        scoredList (fun i => (i : ℤ)) heurSample ∧
      ∀ e ∈ scoredList (fun i => (i : ℤ)) heurSample,
        entryLe (choose_best_by_heuristic (fun i => (i : ℤ)) heurSample, s, a) e
          = true) ∧
    (1 : ℕ) = choose_best_by_heuristic (fun i => (i : ℤ)) heurSample :=
  ⟨(heuristic_choice_deterministic_lex_best ℤ (fun i => (i : ℤ))
      heurIneligible).1 (by decide),
    ((heuristic_choice_deterministic_lex_best ℤ (fun i => (i : ℤ))
      heurSample).2.1 (by decide)),
    ((heuristic_choice_deterministic_lex_best ℤ (fun i => (i : ℤ))
      heurSample).2.2 [(1, 1, 0), (0, 0, 100)] (1, 1, 0) (by decide) (by decide)
      (by decide))⟩
